import Mathlib

/-!
Shallow embedding of the serial input framing engine
(`components/modules/serial_common.c`) and the console writer
(`components/modules/console.c`) of the nodemcu-firmware repository,
together with proofs of the specified behavioural properties.

Bytes are modelled as `Nat` (C `char` values are 0..255; the `(uint8_t)`
casts of the source appear as `% 256`).  The Lua registry is modelled as a
counter plus the list of live references; `LUA_NOREF` is `Option.none`.
Allocation (realloc) success is an explicit oracle parameter.
-/

namespace SerialVerify

set_option maxRecDepth 8192

/-- Historical maximum input size, `#define MAX_SERIAL_INPUT 255`. -/
def MAX_SERIAL_INPUT : Nat := 255

/-- `struct serial_input_cfg` from serial_common.c.  `receive_ref`/`error_ref`
are `none` for `LUA_NOREF`.  `line_buffer` is `none` for a NULL pointer;
`some l` models an allocation whose bytes are the list `l`
(`l.length` is the allocated size). -/
structure serial_input_cfg where
  receive_ref : Option Nat
  error_ref : Option Nat
  line_buffer : Option (List Nat)
  line_buffer_size : Nat
  line_position : Nat
  need_len : Nat
  end_char : Int
deriving Repr, DecidableEq

/-- `serial_input_new`: calloc-zeroed config with both refs `LUA_NOREF` and
`end_char = -1`. -/
def serial_input_new : serial_input_cfg :=
  { receive_ref := none
    error_ref := none
    line_buffer := none
    line_buffer_size := 0
    line_position := 0
    need_len := 0
    end_char := -1 }

/-- One call made to `serial_input_dispatch_data` from inside
`serial_input_feed_data`: the dispatched byte slice, and the state of the
cfg at the moment of the call (the data callback observes this state). -/
structure dispatch_event where
  frame : List Nat
  cfg_at_dispatch : serial_input_cfg
deriving Repr, DecidableEq

/-- The `max_wanted` bound computed at the top of `serial_input_feed_data`:
`(end_char >= 0 && need_len == 0) ? line_buffer_size : need_len`. -/
def max_wanted (cfg : serial_input_cfg) : Nat :=
  if 0 ≤ cfg.end_char ∧ cfg.need_len = 0 then cfg.line_buffer_size else cfg.need_len

/-- The per-byte loop of `serial_input_feed_data`.  `mw` and `ec` are the
`max_wanted` and `end_char` values captured before the loop.  Returns the
final cfg and the dispatch calls made, in order.  The write
`line_buffer[line_position] = ch` is `List.set` (in-bounds in every
reachable state; `List.set` ignores out-of-range writes where the C code
would overflow the heap buffer). -/
def feed_loop (mw : Nat) (ec : Int) : serial_input_cfg → List Nat →
    serial_input_cfg × List dispatch_event
  | cfg, [] => (cfg, [])
  | cfg, ch :: rest =>
    let cfg1 : serial_input_cfg :=
      { cfg with
        line_buffer := cfg.line_buffer.map (fun l => l.set cfg.line_position ch)
        line_position := cfg.line_position + 1 }
    if mw ≤ cfg1.line_position ∨ (0 ≤ ec ∧ (ch : Int) % 256 = ec % 256) then
      -- at_end || end_char_found: reset position early, then dispatch
      let n := cfg1.line_position
      let cfg2 : serial_input_cfg := { cfg1 with line_position := 0 }
      let ev : dispatch_event := ⟨(cfg2.line_buffer.getD []).take n, cfg2⟩
      let r := feed_loop mw ec cfg2 rest
      (r.1, ev :: r.2)
    else
      feed_loop mw ec cfg1 rest

/-- `serial_input_feed_data`.  The NULL-cfg/NULL-buf guards of the C code
cannot arise in the embedding; the `!cfg->line_buffer` guard and the empty
input case are modelled directly. -/
def serial_input_feed_data (cfg : serial_input_cfg) (buf : List Nat) :
    serial_input_cfg × List dispatch_event :=
  if cfg.line_buffer = none then (cfg, [])
  else feed_loop (max_wanted cfg) cfg.end_char cfg buf

/-- `serial_input_has_data_cb`. -/
def serial_input_has_data_cb (cfg : serial_input_cfg) : Bool :=
  cfg.receive_ref.isSome

/-- The bytes currently buffered but not yet dispatched: the first
`line_position` bytes of the line buffer. -/
def pendingBytes (cfg : serial_input_cfg) : List Nat :=
  (cfg.line_buffer.getD []).take cfg.line_position

/-- The Lua registry as used through `luaL_ref`/`luaL_unref`: a fresh-ref
counter and the list of live references. -/
structure LuaRegistry where
  next : Nat
  live : List Nat
deriving Repr, DecidableEq

/-- `luaL_ref(L, LUA_REGISTRYINDEX)` on the pushed value: returns a fresh
reference and records it live. -/
def luaL_ref (r : LuaRegistry) : Nat × LuaRegistry :=
  (r.next, ⟨r.next + 1, r.next :: r.live⟩)

/-- `luaL_unref(L, LUA_REGISTRYINDEX, ref)`: the reference stops being live. -/
def luaL_unref (r : LuaRegistry) (ref : Nat) : LuaRegistry :=
  ⟨r.next, r.live.erase ref⟩

/-- The value at a Lua stack slot, as far as `serial_input_register`
inspects it (`lua_isnumber` / `lua_isstring` / `lua_isfunction`).
`str` carries the string's bytes.  `nil` stands for any other value. -/
inductive LuaArg
  | num (n : Int)
  | str (s : List Nat)
  | func
  | nil
deriving Repr, DecidableEq

/-- The argument-2 parsing step of `serial_input_register` (lines 126-139):
a number sets `need_len` (converted to `uint16_t`) and clears `end_char`;
a string must be a single byte and sets `end_char`, clearing `need_len`;
anything else leaves the framing parameters alone. -/
def parse_arg2 (cfg : serial_input_cfg) : LuaArg → Except String serial_input_cfg
  | .num n =>
    .ok { cfg with need_len := (n % 65536).toNat, end_char := -1 }
  | .str s =>
    if s.length = 1 then
      .ok { cfg with need_len := 0, end_char := (s.headI : Int) }
    else
      .error "only single byte end marker supported"
  | _ => .ok cfg

/-- Which stack index holds the callback function (`fn_idx`): index 2 if
argument 2 is a function, else index 3 if argument 3 is one. -/
def fn_index (arg2 arg3 : LuaArg) : Option Nat :=
  match arg2 with
  | .func => some 2
  | _ => match arg3 with
    | .func => some 3
    | _ => none

/-- `min_size` as computed in the data branch of `serial_input_register`:
`need_len` if positive, else `MAX_SERIAL_INPUT`; raised to
`line_position + 1` whenever `line_position` has already reached it. -/
def min_size_for (cfg : serial_input_cfg) : Nat :=
  let base := if cfg.need_len > 0 then cfg.need_len else MAX_SERIAL_INPUT
  if cfg.line_position ≥ base then cfg.line_position + 1 else base

/-- Result of `serial_input_register`: `err` is the `luaL_error` message if
one was raised (the longjmp does not undo the mutations already made to the
cfg and registry, which are returned alongside). -/
structure RegResult where
  err : Option String
  cfg : serial_input_cfg
  reg : LuaRegistry
deriving Repr, DecidableEq

/-- `serial_input_register` (serial_common.c lines 116-197).  `allocOk`
is the oracle for the `realloc` in the data branch.  On realloc failure the
C code stores the NULL result into `line_buffer`, zeroes
`line_buffer_size`, and raises "out of mem". -/
def serial_input_register (allocOk : Bool) (reg : LuaRegistry)
    (cfg : serial_input_cfg) (method : String) (arg2 arg3 : LuaArg) :
    RegResult :=
  let is_data := method = "data"
  let is_error := method = "error"
  if ¬is_data ∧ ¬is_error then
    ⟨some "method not supported", cfg, reg⟩
  else
    match parse_arg2 cfg arg2 with
    | .error e => ⟨some e, cfg, reg⟩
    | .ok cfg =>
      let fi := fn_index arg2 arg3
      if is_data then
        -- unref & clear any previous data callback
        let st :=
          match cfg.receive_ref with
          | some r => ({ cfg with receive_ref := none }, luaL_unref reg r)
          | none => (cfg, reg)
        let cfg := st.1
        let reg := st.2
        match fi with
        | some _ =>
          -- register and (re)alloc resources
          let rr := luaL_ref reg
          let cfg := { cfg with receive_ref := some rr.1 }
          let reg := rr.2
          let min_size := min_size_for cfg
          if cfg.line_buffer_size < min_size then
            if allocOk then
              let old := cfg.line_buffer.getD []
              ⟨none,
               { cfg with
                 line_buffer := some ((old ++ List.replicate min_size 0).take min_size)
                 line_buffer_size := min_size },
               reg⟩
            else
              ⟨some "out of mem",
               { cfg with line_buffer := none, line_buffer_size := 0 },
               reg⟩
          else
            ⟨none, cfg, reg⟩
        | none =>
          -- free resources
          ⟨none,
           { cfg with line_buffer := none, line_buffer_size := 0, line_position := 0 },
           reg⟩
      else
        let st :=
          match cfg.error_ref with
          | some r => ({ cfg with error_ref := none }, luaL_unref reg r)
          | none => (cfg, reg)
        let cfg := st.1
        let reg := st.2
        match fi with
        | some _ =>
          let rr := luaL_ref reg
          ⟨none, { cfg with error_ref := some rr.1 }, rr.2⟩
        | none =>
          ⟨none, cfg, reg⟩

/-- An operation performed on a serial input stream from the Lua VM task:
a feed of device bytes, or a `serial_input_register` call. -/
inductive Op
  | feed (buf : List Nat)
  | register (allocOk : Bool) (method : String) (arg2 arg3 : LuaArg)
deriving Repr, DecidableEq

/-- A serial stream together with the Lua registry it holds references in. -/
structure SysState where
  cfg : serial_input_cfg
  reg : LuaRegistry
deriving Repr, DecidableEq

/-- A freshly created stream (`serial_input_new`) and an empty registry. -/
def initState : SysState := ⟨serial_input_new, ⟨0, []⟩⟩

/-- Execute one operation, collecting the dispatch calls it makes
(`serial_input_register` never dispatches). -/
def stepOp (s : SysState) : Op → SysState × List dispatch_event
  | .feed buf =>
    let r := serial_input_feed_data s.cfg buf
    (⟨r.1, s.reg⟩, r.2)
  | .register ok m a2 a3 =>
    let r := serial_input_register ok s.reg s.cfg m a2 a3
    (⟨r.cfg, r.reg⟩, [])

/-- Execute a sequence of operations from a state, collecting all dispatch
calls in order. -/
def runOps : SysState → List Op → SysState × List dispatch_event
  | s, [] => (s, [])
  | s, op :: ops =>
    let r1 := stepOp s op
    let r2 := runOps r1.1 ops
    (r2.1, r1.2 ++ r2.2)

-- ------------------------------------------------------------------
-- Console writer (console.c, retrying_write)
-- ------------------------------------------------------------------

/-- Observable I/O action of `retrying_write`: an `fwrite` attempt (offset
into the payload, requested size, bytes the C library reported written),
the `fflush(stdout)`, the `fsync(fileno(stdout))`, and the `vTaskDelay(1)`
backpressure pause. -/
inductive WEvent
  | write (offset size n : Nat)
  | flush
  | sync
  | delay
deriving Repr, DecidableEq

/-- Outcome of one `fwrite` call: the byte count it returned and whether
`ferror(stdout)` is set afterwards. -/
structure WAttempt where
  n : Nat
  err : Bool
deriving Repr, DecidableEq

/-- The chunk size attempted at a given progress point:
`left > MAX_LEN ? MAX_LEN : left` with `MAX_LEN = 255`. -/
def to_write (len written : Nat) : Nat :=
  let left := len - written
  if left > 255 then 255 else left

/-- The loop of `retrying_write` (console.c lines 169-193), driven by the
list of `fwrite` outcomes (one entry consumed per iteration; the loop stops
early if the outcomes run out, which stands for cutting off an otherwise
still-running retry loop).  Returns the total bytes written and the I/O
trace. -/
def rw_loop (len : Nat) : Nat → List WAttempt → Nat × List WEvent
  | written, [] => (written, [])
  | written, a :: rest =>
    if written < len then
      let tw := to_write len written
      if a.n > 0 then
        let r := rw_loop len (written + a.n) rest
        (r.1, .write written tw a.n :: .flush :: .sync :: r.2)
      else if a.err then
        (written, [.write written tw a.n, .flush, .sync])
      else
        let r := rw_loop len written rest
        (r.1, .write written tw a.n :: .flush :: .sync :: .delay :: r.2)
    else
      (written, [])

/-- `retrying_write(buf, len)`: the loop starting from zero progress. -/
def retrying_write (len : Nat) (attempts : List WAttempt) : Nat × List WEvent :=
  rw_loop len 0 attempts

/-- Trace well-formedness for the writer: every `fwrite` attempt requests at
most 255 bytes and is followed immediately by a flush and a sync before
anything else happens. -/
def chunked_flushed : List WEvent → Bool
  | [] => true
  | .write _ size _ :: .flush :: .sync :: rest => size ≤ 255 && chunked_flushed rest
  | .delay :: rest => chunked_flushed rest
  | _ => false

-- ==================================================================
-- Helper lemmas
-- ==================================================================

lemma take_set_succ (l : List Nat) (p ch : Nat) (h : p < l.length) :
    (l.set p ch).take (p + 1) = l.take p ++ [ch] := by
  induction l generalizing p with
  | nil => simp at h
  | cons a t ih =>
    cases p with
    | zero => simp
    | succ q =>
      simp only [List.length_cons] at h
      simp only [List.set, List.take, List.cons_append]
      rw [ih q (by omega)]

/-- The frame-production lemma for fixed-length mode: with `end_char`
negative and a frame bound `0 < n`, the feed loop dispatches frames of
length exactly `n`, partitions the stream, and tracks the cursor mod `n`. -/
lemma feed_loop_fixed (n : Nat) (ec : Int) (hn : 0 < n) (hec : ec < 0) :
    ∀ (buf : List Nat) (cfg : serial_input_cfg) (l : List Nat),
    cfg.line_buffer = some l →
    cfg.line_position < n → n ≤ l.length →
    (∀ e ∈ (feed_loop n ec cfg buf).2, e.frame.length = n) ∧
    ((feed_loop n ec cfg buf).2.map (fun e => e.frame)).flatten
        ++ pendingBytes (feed_loop n ec cfg buf).1 = pendingBytes cfg ++ buf ∧
    (feed_loop n ec cfg buf).1.line_position = (cfg.line_position + buf.length) % n ∧
    (∃ l', (feed_loop n ec cfg buf).1.line_buffer = some l' ∧ l'.length = l.length) := by
  intro buf
  induction buf with
  | nil =>
    intro cfg l hb hp hnl
    refine ⟨by simp [feed_loop], by simp [feed_loop], ?_, ⟨l, by simp [feed_loop, hb], rfl⟩⟩
    simp [feed_loop, Nat.mod_eq_of_lt hp]
  | cons ch rest ih =>
    intro cfg l hb hp hnl
    have hplen : cfg.line_position < l.length := lt_of_lt_of_le hp hnl
    have hframe : (l.set cfg.line_position ch).take (cfg.line_position + 1) =
        l.take cfg.line_position ++ [ch] := take_set_succ l _ ch hplen
    have hset_len : (l.set cfg.line_position ch).length = l.length := by simp
    have hpend : pendingBytes cfg = l.take cfg.line_position := by
      simp [pendingBytes, hb]
    have hecf : ¬(0 ≤ ec ∧ (ch : Int) % 256 = ec % 256) :=
      fun h => absurd h.1 (not_le.mpr hec)
    by_cases hend : n ≤ cfg.line_position + 1
    · -- the byte completes a frame of length exactly n
      have hcond : n ≤ cfg.line_position + 1 ∨ (0 ≤ ec ∧ (ch : Int) % 256 = ec % 256) :=
        Or.inl hend
      have hpn : cfg.line_position + 1 = n := le_antisymm (Nat.succ_le_of_lt hp) hend
      simp only [feed_loop, hb, Option.map_some', Option.getD_some, if_pos hcond]
      obtain ⟨ihe, ihj, ihp, l', hl', hl'len⟩ :=
        ih { cfg with
             line_buffer := some (l.set cfg.line_position ch),
             line_position := 0 }
          (l.set cfg.line_position ch) rfl hn (hset_len.symm ▸ hnl)
      refine ⟨?_, ?_, ?_, ⟨l', hl', hl'len.trans hset_len⟩⟩
      · intro e he
        rcases List.mem_cons.mp he with h | h
        · subst h
          simp only [hframe]
          simp only [List.length_append, List.length_take, List.length_cons,
            List.length_nil]
          omega
        · exact ihe e h
      · have hpend2 : pendingBytes
            { cfg with
              line_buffer := some (l.set cfg.line_position ch),
              line_position := 0 } = [] := by
          simp [pendingBytes]
        rw [hpend2] at ihj
        simp only [List.map_cons, List.flatten_cons]
        rw [List.append_assoc, ihj, hframe, hpend]
        simp
      · calc (feed_loop n ec
              { cfg with
                line_buffer := some (l.set cfg.line_position ch),
                line_position := 0 } rest).1.line_position
            = (0 + rest.length) % n := ihp
          _ = rest.length % n := by rw [Nat.zero_add]
          _ = (n + rest.length) % n := (Nat.add_mod_left n rest.length).symm
          _ = (cfg.line_position + (ch :: rest).length) % n := by
              congr 1
              simp only [List.length_cons]
              omega
    · -- no frame completes; the cursor advances
      have hcond : ¬(n ≤ cfg.line_position + 1 ∨ (0 ≤ ec ∧ (ch : Int) % 256 = ec % 256)) :=
        not_or.mpr ⟨hend, hecf⟩
      simp only [feed_loop, hb, Option.map_some', if_neg hcond]
      obtain ⟨ihe, ihj, ihp, l', hl', hl'len⟩ :=
        ih { cfg with
             line_buffer := some (l.set cfg.line_position ch),
             line_position := cfg.line_position + 1 }
          (l.set cfg.line_position ch) rfl (not_le.mp hend) (hset_len.symm ▸ hnl)
      refine ⟨ihe, ?_, ?_, ⟨l', hl', hl'len.trans hset_len⟩⟩
      · rw [ihj]
        have hpend1 : pendingBytes
            { cfg with
              line_buffer := some (l.set cfg.line_position ch),
              line_position := cfg.line_position + 1 } =
            l.take cfg.line_position ++ [ch] := by
          simp only [pendingBytes, Option.getD_some]
          exact hframe
        rw [hpend1, hpend]
        simp
      · calc (feed_loop n ec
              { cfg with
                line_buffer := some (l.set cfg.line_position ch),
                line_position := cfg.line_position + 1 } rest).1.line_position
            = (cfg.line_position + 1 + rest.length) % n := ihp
          _ = (cfg.line_position + (ch :: rest).length) % n := by
              congr 1
              simp only [List.length_cons]
              omega


/-- C1: with `need_len = n > 0`, no end char, and an empty buffer (a freshly
registered FixedLength(n) stream), `serial_input_feed_data` dispatches
frames of length exactly `n` that partition the input in order (no byte
skipped or duplicated), and a remainder shorter than `n` stays buffered
with `line_position` equal to its length.  In particular FixedLength(4) fed
"ABCDEFGH" dispatches exactly "ABCD" then "EFGH" and ends at position 0. -/
theorem fixed_length_frame_completeness :
    (∀ (n : Nat) (cfg : serial_input_cfg) (l : List Nat) (buf : List Nat),
      0 < n → cfg.need_len = n → cfg.end_char < 0 →
      cfg.line_buffer = some l → n ≤ l.length → cfg.line_position = 0 →
      (∀ e ∈ (serial_input_feed_data cfg buf).2, e.frame.length = n) ∧
      ((serial_input_feed_data cfg buf).2.map (fun e => e.frame)).flatten
          ++ pendingBytes (serial_input_feed_data cfg buf).1 = buf ∧
      (serial_input_feed_data cfg buf).1.line_position = buf.length % n ∧
      (pendingBytes (serial_input_feed_data cfg buf).1).length = buf.length % n) ∧
    ((serial_input_feed_data
        (serial_input_register true ⟨0, []⟩ serial_input_new "data" (.num 4) .func).cfg
        [65, 66, 67, 68, 69, 70, 71, 72]).2.map (fun e => e.frame)
          = [[65, 66, 67, 68], [69, 70, 71, 72]] ∧
     (serial_input_feed_data
        (serial_input_register true ⟨0, []⟩ serial_input_new "data" (.num 4) .func).cfg
        [65, 66, 67, 68, 69, 70, 71, 72]).1.line_position = 0) := by
  constructor
  · intro n cfg l buf hn hnl hec hb hln hp
    have hbne : ¬ cfg.line_buffer = none := by simp [hb]
    have hmw : max_wanted cfg = n := by
      simp only [max_wanted]
      rw [if_neg]
      · exact hnl
      · intro h
        exact absurd h.1 (not_le.mpr hec)
    have hfeed : serial_input_feed_data cfg buf = feed_loop n cfg.end_char cfg buf := by
      simp only [serial_input_feed_data, if_neg hbne, hmw]
    obtain ⟨he, hj, hpos, l', hl', hlen⟩ :=
      feed_loop_fixed n cfg.end_char hn hec buf cfg l hb (by omega) hln
    rw [hfeed]
    have hpend0 : pendingBytes cfg = [] := by
      simp [pendingBytes, hb, hp]
    refine ⟨he, ?_, ?_, ?_⟩
    · rw [hj, hpend0]
      simp
    · rw [hpos, hp, Nat.zero_add]
    · have hmod : buf.length % n < n := Nat.mod_lt _ hn
      simp only [pendingBytes, hl', Option.getD_some, List.length_take]
      rw [hpos, hp, Nat.zero_add]
      omega
  · constructor
    · decide
    · decide

/-- Witness for `fixed_length_frame_completeness`: FixedLength(3) stream
with a 3-byte buffer fed five bytes. -/
theorem fixed_length_frame_completeness_witness :
    (∀ e ∈ (serial_input_feed_data ⟨some 0, none, some [0, 0, 0], 3, 0, 3, -1⟩
        [10, 20, 30, 40, 50]).2, e.frame.length = 3) ∧
    ((serial_input_feed_data ⟨some 0, none, some [0, 0, 0], 3, 0, 3, -1⟩
        [10, 20, 30, 40, 50]).2.map (fun e => e.frame)).flatten
      ++ pendingBytes (serial_input_feed_data ⟨some 0, none, some [0, 0, 0], 3, 0, 3, -1⟩
        [10, 20, 30, 40, 50]).1 = [10, 20, 30, 40, 50] ∧
    (serial_input_feed_data ⟨some 0, none, some [0, 0, 0], 3, 0, 3, -1⟩
        [10, 20, 30, 40, 50]).1.line_position = [10, 20, 30, 40, 50].length % 3 ∧
    (pendingBytes (serial_input_feed_data ⟨some 0, none, some [0, 0, 0], 3, 0, 3, -1⟩
        [10, 20, 30, 40, 50]).1).length = [10, 20, 30, 40, 50].length % 3 :=
  fixed_length_frame_completeness.1 3 ⟨some 0, none, some [0, 0, 0], 3, 0, 3, -1⟩
    [0, 0, 0] [10, 20, 30, 40, 50] (by decide) rfl (by decide) rfl (by decide) rfl

/-- The frame-production lemma for delimiter mode: with a nonnegative
`end_char` and `max_wanted` equal to the buffer length, every dispatched
frame ends in the delimiter byte (compared mod 256, as the C `(uint8_t)`
casts do) or has length exactly `max_wanted`, and the stream is
partitioned with no byte skipped or duplicated. -/
lemma feed_loop_delim (mw : Nat) (ec : Int) :
    ∀ (buf : List Nat) (cfg : serial_input_cfg) (l : List Nat),
    cfg.line_buffer = some l →
    cfg.line_position < mw → mw = l.length →
    (∀ e ∈ (feed_loop mw ec cfg buf).2,
       (∃ b, e.frame.getLast? = some b ∧ (b : Int) % 256 = ec % 256) ∨
       e.frame.length = mw) ∧
    ((feed_loop mw ec cfg buf).2.map (fun e => e.frame)).flatten
        ++ pendingBytes (feed_loop mw ec cfg buf).1 = pendingBytes cfg ++ buf ∧
    (feed_loop mw ec cfg buf).1.line_position < mw ∧
    (∃ l', (feed_loop mw ec cfg buf).1.line_buffer = some l' ∧ l'.length = l.length) := by
  intro buf
  induction buf with
  | nil =>
    intro cfg l hb hp hml
    exact ⟨by simp [feed_loop], by simp [feed_loop], by simpa [feed_loop] using hp,
      ⟨l, by simp [feed_loop, hb], rfl⟩⟩
  | cons ch rest ih =>
    intro cfg l hb hp hml
    have hplen : cfg.line_position < l.length := hml ▸ hp
    have hmw0 : 0 < mw := lt_of_le_of_lt (Nat.zero_le _) hp
    have hframe : (l.set cfg.line_position ch).take (cfg.line_position + 1) =
        l.take cfg.line_position ++ [ch] := take_set_succ l _ ch hplen
    have hset_len : (l.set cfg.line_position ch).length = l.length := by simp
    have hpend : pendingBytes cfg = l.take cfg.line_position := by
      simp [pendingBytes, hb]
    by_cases hcond : mw ≤ cfg.line_position + 1 ∨ (0 ≤ ec ∧ (ch : Int) % 256 = ec % 256)
    · -- dispatch: either the capacity was reached or the delimiter matched
      simp only [feed_loop, hb, Option.map_some', Option.getD_some, if_pos hcond]
      obtain ⟨ihe, ihj, ihp, l', hl', hl'len⟩ :=
        ih { cfg with
             line_buffer := some (l.set cfg.line_position ch),
             line_position := 0 }
          (l.set cfg.line_position ch) rfl hmw0 (hml.trans hset_len.symm)
      refine ⟨?_, ?_, ihp, ⟨l', hl', hl'len.trans hset_len⟩⟩
      · intro e he
        rcases List.mem_cons.mp he with h | h
        · subst h
          rcases hcond with hcap | hdel
          · right
            simp only [hframe]
            simp only [List.length_append, List.length_take, List.length_cons,
              List.length_nil]
            omega
          · left
            refine ⟨ch, ?_, hdel.2⟩
            simp only [hframe]
            exact List.getLast?_concat _
        · exact ihe e h
      · have hpend2 : pendingBytes
            { cfg with
              line_buffer := some (l.set cfg.line_position ch),
              line_position := 0 } = [] := by
          simp [pendingBytes]
        rw [hpend2] at ihj
        simp only [List.map_cons, List.flatten_cons]
        rw [List.append_assoc, ihj, hframe, hpend]
        simp
    · -- no dispatch; the cursor advances and stays below the bound
      simp only [feed_loop, hb, Option.map_some', if_neg hcond]
      have hlt : cfg.line_position + 1 < mw := by
        rcases not_or.mp hcond with ⟨h1, _⟩
        omega
      obtain ⟨ihe, ihj, ihp, l', hl', hl'len⟩ :=
        ih { cfg with
             line_buffer := some (l.set cfg.line_position ch),
             line_position := cfg.line_position + 1 }
          (l.set cfg.line_position ch) rfl hlt (hml.trans hset_len.symm)
      refine ⟨ihe, ?_, ihp, ⟨l', hl', hl'len.trans hset_len⟩⟩
      rw [ihj]
      have hpend1 : pendingBytes
          { cfg with
            line_buffer := some (l.set cfg.line_position ch),
            line_position := cfg.line_position + 1 } =
          l.take cfg.line_position ++ [ch] := by
        simp only [pendingBytes, Option.getD_some]
        exact hframe
      rw [hpend1, hpend]
      simp

/-- C2: with a Delimited(d) policy (`end_char = d ≥ 0`, `need_len = 0`),
every dispatched frame's last byte equals `d` (mod 256, as the C casts
compare) except possibly a frame forced out when the cursor reaches the
buffer capacity (that frame has length exactly the capacity), and no input
byte is skipped or duplicated across frames.  In particular "ab\n cd" under
Delimited(10) dispatches exactly "ab\n" leaving "cd" buffered, and feeding
4 bytes with capacity 4 and no delimiter forces a dispatch of all 4. -/
theorem delimiter_correctness :
    (∀ (cfg : serial_input_cfg) (l : List Nat) (buf : List Nat),
      0 ≤ cfg.end_char → cfg.need_len = 0 →
      cfg.line_buffer = some l → l.length = cfg.line_buffer_size →
      cfg.line_position < cfg.line_buffer_size →
      (∀ e ∈ (serial_input_feed_data cfg buf).2,
         (∃ b, e.frame.getLast? = some b ∧ (b : Int) % 256 = cfg.end_char % 256) ∨
         e.frame.length = cfg.line_buffer_size) ∧
      ((serial_input_feed_data cfg buf).2.map (fun e => e.frame)).flatten
          ++ pendingBytes (serial_input_feed_data cfg buf).1
          = pendingBytes cfg ++ buf) ∧
    ((serial_input_feed_data
        (serial_input_register true ⟨0, []⟩ serial_input_new "data" (.str [10]) .func).cfg
        [97, 98, 10, 99, 100]).2.map (fun e => e.frame) = [[97, 98, 10]] ∧
     pendingBytes (serial_input_feed_data
        (serial_input_register true ⟨0, []⟩ serial_input_new "data" (.str [10]) .func).cfg
        [97, 98, 10, 99, 100]).1 = [99, 100]) ∧
    ((serial_input_feed_data ⟨some 0, none, some [0, 0, 0, 0], 4, 0, 0, 10⟩
        [97, 98, 99, 100]).2.map (fun e => e.frame) = [[97, 98, 99, 100]] ∧
     (serial_input_feed_data ⟨some 0, none, some [0, 0, 0, 0], 4, 0, 0, 10⟩
        [97, 98, 99, 100]).1.line_position = 0) := by
  refine ⟨?_, ⟨by decide, by decide⟩, ⟨by decide, by decide⟩⟩
  intro cfg l buf hec hnl hb hls hp
  have hbne : ¬ cfg.line_buffer = none := by simp [hb]
  have hmw : max_wanted cfg = cfg.line_buffer_size := by
    simp only [max_wanted]
    rw [if_pos ⟨hec, hnl⟩]
  have hfeed : serial_input_feed_data cfg buf =
      feed_loop cfg.line_buffer_size cfg.end_char cfg buf := by
    simp only [serial_input_feed_data, if_neg hbne, hmw]
  obtain ⟨he, hj, hpos, l', hl', hlen⟩ :=
    feed_loop_delim cfg.line_buffer_size cfg.end_char buf cfg l hb hp hls.symm
  rw [hfeed]
  exact ⟨he, hj⟩

/-- Witness for `delimiter_correctness`: a capacity-4 Delimited(10) stream
fed a mix of delimited and capacity-forced frames. -/
theorem delimiter_correctness_witness :
    (∀ e ∈ (serial_input_feed_data ⟨some 0, none, some [0, 0, 0, 0], 4, 0, 0, 10⟩
        [97, 10, 98, 99, 100, 101, 102]).2,
       (∃ b, e.frame.getLast? = some b ∧
          (b : Int) % 256 = (⟨some 0, none, some [0, 0, 0, 0], 4, 0, 0, 10⟩ :
            serial_input_cfg).end_char % 256) ∨
       e.frame.length = (⟨some 0, none, some [0, 0, 0, 0], 4, 0, 0, 10⟩ :
         serial_input_cfg).line_buffer_size) ∧
    ((serial_input_feed_data ⟨some 0, none, some [0, 0, 0, 0], 4, 0, 0, 10⟩
        [97, 10, 98, 99, 100, 101, 102]).2.map (fun e => e.frame)).flatten
      ++ pendingBytes (serial_input_feed_data ⟨some 0, none, some [0, 0, 0, 0], 4, 0, 0, 10⟩
        [97, 10, 98, 99, 100, 101, 102]).1
      = pendingBytes ⟨some 0, none, some [0, 0, 0, 0], 4, 0, 0, 10⟩
        ++ [97, 10, 98, 99, 100, 101, 102] :=
  delimiter_correctness.1 ⟨some 0, none, some [0, 0, 0, 0], 4, 0, 0, 10⟩
    [0, 0, 0, 0] [97, 10, 98, 99, 100, 101, 102]
    (by decide) rfl rfl rfl (by decide)

lemma to_write_le (len written : Nat) : to_write len written ≤ 255 := by
  simp only [to_write]
  split <;> omega

/-- Every writer trace consists of chunk attempts of at most 255 bytes,
each followed immediately by a flush and a sync. -/
lemma rw_loop_chunked (len : Nat) :
    ∀ (attempts : List WAttempt) (written : Nat),
    chunked_flushed (rw_loop len written attempts).2 = true := by
  intro attempts
  induction attempts with
  | nil =>
    intro written
    simp [rw_loop, chunked_flushed]
  | cons a rest ih =>
    intro written
    by_cases hw : written < len
    · by_cases hn : a.n > 0
      · simp only [rw_loop, if_pos hw, if_pos hn]
        simp only [chunked_flushed, Bool.and_eq_true, decide_eq_true_eq]
        exact ⟨to_write_le len written, ih (written + a.n)⟩
      · by_cases he : a.err
        · simp only [rw_loop, if_pos hw, if_neg hn, if_pos he]
          simp only [chunked_flushed, Bool.and_eq_true, decide_eq_true_eq]
          exact ⟨to_write_le len written, trivial⟩
        · simp only [rw_loop, if_pos hw, if_neg hn, if_neg he]
          simp only [chunked_flushed, Bool.and_eq_true, decide_eq_true_eq]
          exact ⟨to_write_le len written, ih written⟩
    · simp [rw_loop, hw, chunked_flushed]

/-- Each `fwrite` attempt in the writer trace requests exactly the canonical
chunk for its offset: `min(len - offset, 255)` bytes. -/
def chunks_canonical (len : Nat) : List WEvent → Bool
  | [] => true
  | .write off sz _ :: rest => (sz = to_write len off) && chunks_canonical len rest
  | _ :: rest => chunks_canonical len rest

lemma rw_loop_canonical (len : Nat) :
    ∀ (attempts : List WAttempt) (written : Nat),
    chunks_canonical len (rw_loop len written attempts).2 = true := by
  intro attempts
  induction attempts with
  | nil =>
    intro written
    simp [rw_loop, chunks_canonical]
  | cons a rest ih =>
    intro written
    by_cases hw : written < len
    · by_cases hn : a.n > 0
      · simp only [rw_loop, if_pos hw, if_pos hn]
        simp only [chunks_canonical, Bool.and_eq_true, decide_eq_true_eq]
        exact ⟨trivial, ih (written + a.n)⟩
      · by_cases he : a.err
        · simp only [rw_loop, if_pos hw, if_neg hn, if_pos he]
          simp only [chunks_canonical, Bool.and_eq_true, decide_eq_true_eq]
          exact ⟨trivial, trivial⟩
        · simp only [rw_loop, if_pos hw, if_neg hn, if_neg he]
          simp only [chunks_canonical, Bool.and_eq_true, decide_eq_true_eq]
          exact ⟨trivial, ih written⟩
    · simp [rw_loop, hw, chunks_canonical]

/-- C7: `retrying_write` splits every payload into consecutive canonical
chunks of at most 255 bytes, flushing and syncing after every chunk before
the next is attempted; a 600-byte payload whose writes all succeed in full
issues chunks of 255, 255 and 90 bytes, each followed by a flush and sync. -/
theorem writer_chunking :
    (∀ (len : Nat) (attempts : List WAttempt),
      chunked_flushed (retrying_write len attempts).2 = true ∧
      chunks_canonical len (retrying_write len attempts).2 = true) ∧
    retrying_write 600 [⟨255, false⟩, ⟨255, false⟩, ⟨90, false⟩] =
      (600, [.write 0 255 255, .flush, .sync, .write 255 255 255, .flush, .sync,
             .write 510 90 90, .flush, .sync]) :=
  ⟨fun len attempts => ⟨rw_loop_chunked len attempts 0, rw_loop_canonical len attempts 0⟩,
   by decide⟩

/-- C8: a zero-byte write with no stream error makes the writer pause
(`vTaskDelay`) and retry the same chunk (same offset, same size); a
zero-byte write with the stream error flag set aborts the write and
returns the byte count written so far. -/
theorem writer_retry_and_abort :
    ∀ (len written : Nat) (rest : List WAttempt),
    written < len →
    (rw_loop len written (⟨0, false⟩ :: rest)).1 = (rw_loop len written rest).1 ∧
    (rw_loop len written (⟨0, false⟩ :: rest)).2 =
      .write written (to_write len written) 0 :: .flush :: .sync :: .delay ::
        (rw_loop len written rest).2 ∧
    (∀ (a : WAttempt) (rest2 : List WAttempt), rest = a :: rest2 →
       ∃ tr, (rw_loop len written rest).2 =
         .write written (to_write len written) a.n :: tr) ∧
    rw_loop len written (⟨0, true⟩ :: rest) =
      (written, [.write written (to_write len written) 0, .flush, .sync]) := by
  intro len written rest hw
  refine ⟨by simp [rw_loop, hw], by simp [rw_loop, hw], ?_, by simp [rw_loop, hw]⟩
  intro a rest2 hr
  subst hr
  by_cases hn : a.n > 0
  · refine ⟨.flush :: .sync :: (rw_loop len (written + a.n) rest2).2, ?_⟩
    simp [rw_loop, hw, hn]
  · by_cases he : a.err
    · refine ⟨[.flush, .sync], ?_⟩
      simp [rw_loop, hw, hn, he]
    · refine ⟨.flush :: .sync :: .delay :: (rw_loop len written rest2).2, ?_⟩
      simp [rw_loop, hw, hn, he]

/-- Witness for `writer_retry_and_abort`: a 10-byte payload whose first
attempt writes nothing. -/
theorem writer_retry_and_abort_witness :
    (rw_loop 10 0 [⟨0, false⟩, ⟨10, false⟩]).1 = (rw_loop 10 0 [⟨10, false⟩]).1 ∧
    (rw_loop 10 0 [⟨0, false⟩, ⟨10, false⟩]).2 =
      .write 0 (to_write 10 0) 0 :: .flush :: .sync :: .delay ::
        (rw_loop 10 0 [⟨10, false⟩]).2 ∧
    rw_loop 10 0 [⟨0, true⟩, ⟨10, false⟩] =
      (0, [.write 0 (to_write 10 0) 0, .flush, .sync]) :=
  ⟨(writer_retry_and_abort 10 0 [⟨10, false⟩] (by decide)).1,
   (writer_retry_and_abort 10 0 [⟨10, false⟩] (by decide)).2.1,
   (writer_retry_and_abort 10 0 [⟨10, false⟩] (by decide)).2.2.2⟩

/-- With `max_wanted = 0` every appended byte immediately completes a
frame: the loop dispatches each byte as its own 1-byte frame and the
cursor returns to 0 every time. -/
lemma feed_loop_mw0 (ec : Int) :
    ∀ (buf : List Nat) (cfg : serial_input_cfg) (l : List Nat),
    cfg.line_buffer = some l → l ≠ [] → cfg.line_position = 0 →
    (feed_loop 0 ec cfg buf).2.map (fun e => e.frame) = buf.map (fun ch => [ch]) ∧
    (feed_loop 0 ec cfg buf).1.line_position = 0 := by
  intro buf
  induction buf with
  | nil =>
    intro cfg l hb hl hp
    simp [feed_loop, hp]
  | cons ch rest ih =>
    intro cfg l hb hl hp
    have hcond : (0 : Nat) ≤ cfg.line_position + 1 ∨ (0 ≤ ec ∧ (ch : Int) % 256 = ec % 256) :=
      Or.inl (Nat.zero_le _)
    simp only [feed_loop, hb, Option.map_some', Option.getD_some, if_pos hcond]
    have hne : l.set cfg.line_position ch ≠ [] := by
      cases l with
      | nil => exact absurd rfl hl
      | cons x xs =>
        cases cfg.line_position with
        | zero => simp [List.set]
        | succ k => simp [List.set]
    obtain ⟨ih1, ih2⟩ :=
      ih { cfg with
           line_buffer := some (l.set cfg.line_position ch),
           line_position := 0 }
        (l.set cfg.line_position ch) rfl hne rfl
    refine ⟨?_, ih2⟩
    simp only [List.map_cons]
    rw [ih1]
    congr 1
    rw [hp]
    cases l with
    | nil => exact absurd rfl hl
    | cons x xs => simp

/-- C10: registering a data callback with numeric frame length 0 (and no
delimiter) is accepted, allocates the default 255-byte buffer, makes the
effective frame bound (`max_wanted`) 0, and then every fed byte is
immediately dispatched as its own 1-byte frame. -/
theorem zero_length_registration :
    (serial_input_register true ⟨0, []⟩ serial_input_new "data" (.num 0) .func).err
      = none ∧
    (serial_input_register true ⟨0, []⟩ serial_input_new "data"
      (.num 0) .func).cfg.line_buffer_size = MAX_SERIAL_INPUT ∧
    max_wanted (serial_input_register true ⟨0, []⟩ serial_input_new "data"
      (.num 0) .func).cfg = 0 ∧
    ∀ buf : List Nat,
      (serial_input_feed_data
        (serial_input_register true ⟨0, []⟩ serial_input_new "data" (.num 0) .func).cfg
        buf).2.map (fun e => e.frame) = buf.map (fun ch => [ch]) ∧
      (serial_input_feed_data
        (serial_input_register true ⟨0, []⟩ serial_input_new "data" (.num 0) .func).cfg
        buf).1.line_position = 0 := by
  refine ⟨by decide, by decide, by decide, ?_⟩
  intro buf
  have hcfg : (serial_input_register true ⟨0, []⟩ serial_input_new "data"
      (.num 0) .func).cfg
      = ⟨some 0, none, some (List.replicate 255 0), 255, 0, 0, -1⟩ := by
    decide
  rw [hcfg]
  have hbne : ¬ ((⟨some 0, none, some (List.replicate 255 0), 255, 0, 0, -1⟩ :
      serial_input_cfg).line_buffer = none) := by
    simp
  have hmw : max_wanted (⟨some 0, none, some (List.replicate 255 0), 255, 0, 0, -1⟩ :
      serial_input_cfg) = 0 := by decide
  simp only [serial_input_feed_data, if_neg hbne, hmw]
  exact feed_loop_mw0 _ buf _ (List.replicate 255 0) rfl (by simp) rfl

/-- C9: with a data callback registered and a partial frame buffered,
calling `serial_input_register` with method "data" and no function
argument frees the line buffer, zeroes its size, resets the cursor to 0,
releases the engine-held callback reference, and dispatches nothing (the
buffered partial frame is discarded, never delivered). -/
theorem unregister_discards_partial :
    ∀ (s : SysState) (r : Nat) (allocOk : Bool),
    s.cfg.receive_ref = some r → 0 < s.cfg.line_position →
    (stepOp s (.register allocOk "data" .nil .nil)).2 = [] ∧
    (stepOp s (.register allocOk "data" .nil .nil)).1.cfg.line_buffer = none ∧
    (stepOp s (.register allocOk "data" .nil .nil)).1.cfg.line_buffer_size = 0 ∧
    (stepOp s (.register allocOk "data" .nil .nil)).1.cfg.line_position = 0 ∧
    (stepOp s (.register allocOk "data" .nil .nil)).1.cfg.receive_ref = none ∧
    (stepOp s (.register allocOk "data" .nil .nil)).1.reg.live = s.reg.live.erase r := by
  intro s r ok hr hp
  simp [stepOp, serial_input_register, parse_arg2, fn_index, hr, luaL_unref]

/-- Witness for `unregister_discards_partial`: a stream with callback
reference 5 and two buffered bytes. -/
theorem unregister_discards_partial_witness :
    (stepOp ⟨⟨some 5, none, some [99, 100, 0, 0], 4, 2, 0, 10⟩, ⟨6, [5]⟩⟩
      (.register true "data" .nil .nil)).2 = [] ∧
    (stepOp ⟨⟨some 5, none, some [99, 100, 0, 0], 4, 2, 0, 10⟩, ⟨6, [5]⟩⟩
      (.register true "data" .nil .nil)).1.cfg.line_buffer = none ∧
    (stepOp ⟨⟨some 5, none, some [99, 100, 0, 0], 4, 2, 0, 10⟩, ⟨6, [5]⟩⟩
      (.register true "data" .nil .nil)).1.cfg.line_buffer_size = 0 ∧
    (stepOp ⟨⟨some 5, none, some [99, 100, 0, 0], 4, 2, 0, 10⟩, ⟨6, [5]⟩⟩
      (.register true "data" .nil .nil)).1.cfg.line_position = 0 ∧
    (stepOp ⟨⟨some 5, none, some [99, 100, 0, 0], 4, 2, 0, 10⟩, ⟨6, [5]⟩⟩
      (.register true "data" .nil .nil)).1.cfg.receive_ref = none ∧
    (stepOp ⟨⟨some 5, none, some [99, 100, 0, 0], 4, 2, 0, 10⟩, ⟨6, [5]⟩⟩
      (.register true "data" .nil .nil)).1.reg.live
      = (⟨6, [5]⟩ : LuaRegistry).live.erase 5 :=
  unregister_discards_partial ⟨⟨some 5, none, some [99, 100, 0, 0], 4, 2, 0, 10⟩, ⟨6, [5]⟩⟩
    5 true rfl (by decide)

/-- `parse_arg2` only changes the framing parameters, never the refs,
buffer, or cursor. -/
lemma parse_arg2_fields :
    ∀ (cfg : serial_input_cfg) (a2 : LuaArg) (cfgP : serial_input_cfg),
    parse_arg2 cfg a2 = .ok cfgP →
    cfgP.receive_ref = cfg.receive_ref ∧ cfgP.error_ref = cfg.error_ref ∧
    cfgP.line_buffer = cfg.line_buffer ∧ cfgP.line_buffer_size = cfg.line_buffer_size ∧
    cfgP.line_position = cfg.line_position := by
  intro cfg a2 cfgP h
  cases a2 with
  | num n =>
    simp [parse_arg2] at h
    subst h
    simp
  | str s =>
    by_cases hs : s.length = 1
    · simp [parse_arg2, hs] at h
      subst h
      simp
    · simp [parse_arg2, hs] at h
  | func =>
    simp [parse_arg2] at h
    subst h
    simp
  | nil =>
    simp [parse_arg2] at h
    subst h
    simp

lemma take_pad_take (l pad : List Nat) (p m : Nat) (hp : p ≤ m) (hl : p ≤ l.length) :
    ((l ++ pad).take m).take p = l.take p := by
  rw [List.take_take, Nat.min_eq_left hp, List.take_append_eq_append_take,
    Nat.sub_eq_zero_of_le hl]
  simp

/-- C5: re-registering a data callback while `line_position > 0` with a
requested capacity at most `line_position` raises the required capacity to
`line_position + 1`; after a successful registration
`line_buffer_size ≥ line_position + 1`, the buffer is never shrunk, and
the buffered prefix survives unchanged. -/
theorem no_data_loss_reregistration :
    ∀ (reg : LuaRegistry) (cfg : serial_input_cfg) (a2 a3 : LuaArg)
      (cfgP : serial_input_cfg) (l : List Nat) (k : Nat),
    parse_arg2 cfg a2 = .ok cfgP →
    fn_index a2 a3 = some k →
    0 < cfg.line_position →
    (if cfgP.need_len > 0 then cfgP.need_len else MAX_SERIAL_INPUT) ≤ cfg.line_position →
    cfg.line_buffer = some l → cfg.line_position ≤ l.length →
    (serial_input_register true reg cfg "data" a2 a3).err = none ∧
    cfg.line_position + 1 ≤
      (serial_input_register true reg cfg "data" a2 a3).cfg.line_buffer_size ∧
    cfg.line_buffer_size ≤
      (serial_input_register true reg cfg "data" a2 a3).cfg.line_buffer_size ∧
    (serial_input_register true reg cfg "data" a2 a3).cfg.line_position
      = cfg.line_position ∧
    (∃ l', (serial_input_register true reg cfg "data" a2 a3).cfg.line_buffer = some l' ∧
       l'.take cfg.line_position = l.take cfg.line_position) := by
  intro reg cfg a2 a3 cfgP l k hparse hk hpos hreq hb hpl
  obtain ⟨hf1, hf2, hf3, hf4, hf5⟩ := parse_arg2_fields cfg a2 cfgP hparse
  have hbP : cfgP.line_buffer = some l := hf3.trans hb
  have hge : cfgP.line_position ≥
      (if cfgP.need_len > 0 then cfgP.need_len else MAX_SERIAL_INPUT) := by
    rw [hf5]
    exact hreq
  rcases hrr : cfgP.receive_ref with _ | r0 <;>
  · simp only [serial_input_register, hparse, hk, hrr, not_true, false_and,
      if_false, if_true, min_size_for, if_pos hge]
    by_cases hsz : cfgP.line_buffer_size < cfgP.line_position + 1
    · simp only [if_pos hsz, if_true, hbP, Option.getD_some]
      refine ⟨trivial, ?_, ?_, hf5, ?_⟩
      · simp [hf5]
      · omega
      · refine ⟨_, rfl, ?_⟩
        rw [hf5]
        exact take_pad_take l _ cfg.line_position (cfg.line_position + 1)
          (Nat.le_succ _) hpl
    · simp only [if_neg hsz]
      refine ⟨trivial, ?_, ?_, hf5, ⟨l, hbP, rfl⟩⟩
      · omega
      · omega

/-- Witness for `no_data_loss_reregistration`: three buffered bytes,
re-registration requesting capacity 2. -/
theorem no_data_loss_reregistration_witness :
    (serial_input_register true ⟨1, [0]⟩ ⟨some 0, none, some [7, 8, 9, 0], 4, 3, 0, 10⟩
      "data" (.num 2) .func).err = none ∧
    3 + 1 ≤ (serial_input_register true ⟨1, [0]⟩
      ⟨some 0, none, some [7, 8, 9, 0], 4, 3, 0, 10⟩
      "data" (.num 2) .func).cfg.line_buffer_size ∧
    4 ≤ (serial_input_register true ⟨1, [0]⟩
      ⟨some 0, none, some [7, 8, 9, 0], 4, 3, 0, 10⟩
      "data" (.num 2) .func).cfg.line_buffer_size ∧
    (serial_input_register true ⟨1, [0]⟩ ⟨some 0, none, some [7, 8, 9, 0], 4, 3, 0, 10⟩
      "data" (.num 2) .func).cfg.line_position = 3 ∧
    (∃ l', (serial_input_register true ⟨1, [0]⟩
      ⟨some 0, none, some [7, 8, 9, 0], 4, 3, 0, 10⟩
      "data" (.num 2) .func).cfg.line_buffer = some l' ∧
      l'.take 3 = [7, 8, 9, 0].take 3) :=
  no_data_loss_reregistration ⟨1, [0]⟩ ⟨some 0, none, some [7, 8, 9, 0], 4, 3, 0, 10⟩
    (.num 2) .func ⟨some 0, none, some [7, 8, 9, 0], 4, 3, 2, -1⟩ [7, 8, 9, 0] 3
    rfl rfl (by decide) (by decide) rfl (by decide)

lemma min_size_for_receive (cfgP : serial_input_cfg) (rr : Option Nat) :
    min_size_for { cfgP with receive_ref := rr } = min_size_for cfgP := rfl

/-- C3 counterexample: a failing (re)allocation during data-callback
registration does change the cfg state: the previously registered
callback reference (5) is released from the registry and replaced by the
new one, the line buffer becomes NULL and its size 0, discarding the
buffered byte.  Only the error itself matches the claim. -/
theorem oom_registration_counterexample :
    (serial_input_register false ⟨6, [5]⟩ ⟨some 5, none, some [9, 0], 2, 1, 2, -1⟩
      "data" (.num 4) .func).err = some "out of mem" ∧
    ¬ ((serial_input_register false ⟨6, [5]⟩ ⟨some 5, none, some [9, 0], 2, 1, 2, -1⟩
      "data" (.num 4) .func).cfg = ⟨some 5, none, some [9, 0], 2, 1, 2, -1⟩) ∧
    (serial_input_register false ⟨6, [5]⟩ ⟨some 5, none, some [9, 0], 2, 1, 2, -1⟩
      "data" (.num 4) .func).cfg.receive_ref ≠ some 5 ∧
    (serial_input_register false ⟨6, [5]⟩ ⟨some 5, none, some [9, 0], 2, 1, 2, -1⟩
      "data" (.num 4) .func).cfg.line_buffer = none ∧
    (serial_input_register false ⟨6, [5]⟩ ⟨some 5, none, some [9, 0], 2, 1, 2, -1⟩
      "data" (.num 4) .func).cfg.line_buffer_size = 0 ∧
    (serial_input_register false ⟨6, [5]⟩ ⟨some 5, none, some [9, 0], 2, 1, 2, -1⟩
      "data" (.num 4) .func).reg.live = [6] := by
  decide

/-- C3 as amended: when the (re)allocation fails during data-callback
registration, the call fails with the out-of-memory error, but state does
change: the new callback reference (the next registry slot) is already
installed in place of the old one, the line buffer is set to NULL and its
size to 0 (the buffered bytes are lost); `line_position` is left
unchanged. -/
theorem oom_registration_state :
    ∀ (reg : LuaRegistry) (cfg : serial_input_cfg) (a2 a3 : LuaArg)
      (cfgP : serial_input_cfg) (k : Nat),
    parse_arg2 cfg a2 = .ok cfgP →
    fn_index a2 a3 = some k →
    cfg.line_buffer_size < min_size_for cfgP →
    (serial_input_register false reg cfg "data" a2 a3).err = some "out of mem" ∧
    (serial_input_register false reg cfg "data" a2 a3).cfg.line_buffer = none ∧
    (serial_input_register false reg cfg "data" a2 a3).cfg.line_buffer_size = 0 ∧
    (serial_input_register false reg cfg "data" a2 a3).cfg.line_position
      = cfg.line_position ∧
    (serial_input_register false reg cfg "data" a2 a3).cfg.receive_ref
      = some reg.next := by
  intro reg cfg a2 a3 cfgP k hparse hk hszlt
  obtain ⟨hf1, hf2, hf3, hf4, hf5⟩ := parse_arg2_fields cfg a2 cfgP hparse
  have hsz : cfgP.line_buffer_size < min_size_for cfgP := by
    rw [hf4]
    exact hszlt
  rcases hrr : cfgP.receive_ref with _ | r0 <;>
  · simp only [serial_input_register, hparse, hk, hrr, not_true, false_and,
      if_false, if_true, min_size_for_receive, if_pos hsz, luaL_ref, luaL_unref,
      Bool.false_eq_true]
    exact ⟨trivial, trivial, trivial, hf5, trivial⟩

/-- Witness for `oom_registration_state`: the counterexample state. -/
theorem oom_registration_state_witness :
    (serial_input_register false ⟨6, [5]⟩ ⟨some 5, none, some [9, 0], 2, 1, 2, -1⟩
      "data" (.num 4) .func).err = some "out of mem" ∧
    (serial_input_register false ⟨6, [5]⟩ ⟨some 5, none, some [9, 0], 2, 1, 2, -1⟩
      "data" (.num 4) .func).cfg.line_buffer = none ∧
    (serial_input_register false ⟨6, [5]⟩ ⟨some 5, none, some [9, 0], 2, 1, 2, -1⟩
      "data" (.num 4) .func).cfg.line_buffer_size = 0 ∧
    (serial_input_register false ⟨6, [5]⟩ ⟨some 5, none, some [9, 0], 2, 1, 2, -1⟩
      "data" (.num 4) .func).cfg.line_position = 1 ∧
    (serial_input_register false ⟨6, [5]⟩ ⟨some 5, none, some [9, 0], 2, 1, 2, -1⟩
      "data" (.num 4) .func).cfg.receive_ref = some 6 :=
  oom_registration_state ⟨6, [5]⟩ ⟨some 5, none, some [9, 0], 2, 1, 2, -1⟩
    (.num 4) .func ⟨some 5, none, some [9, 0], 2, 1, 4, -1⟩ 3
    rfl rfl (by decide)

/-- `feed_loop` never changes the refs, the recorded buffer size, the
framing parameters, or the presence/length of the buffer allocation. -/
lemma feed_loop_struct (mw : Nat) (ec : Int) :
    ∀ (buf : List Nat) (cfg : serial_input_cfg),
    (feed_loop mw ec cfg buf).1.receive_ref = cfg.receive_ref ∧
    (feed_loop mw ec cfg buf).1.error_ref = cfg.error_ref ∧
    (feed_loop mw ec cfg buf).1.line_buffer_size = cfg.line_buffer_size ∧
    (feed_loop mw ec cfg buf).1.need_len = cfg.need_len ∧
    (feed_loop mw ec cfg buf).1.end_char = cfg.end_char ∧
    ((feed_loop mw ec cfg buf).1.line_buffer.isSome = cfg.line_buffer.isSome) ∧
    (∀ l, cfg.line_buffer = some l →
       ∃ l', (feed_loop mw ec cfg buf).1.line_buffer = some l' ∧ l'.length = l.length) := by
  intro buf
  induction buf with
  | nil =>
    intro cfg
    refine ⟨rfl, rfl, rfl, rfl, rfl, rfl, ?_⟩
    intro l hl
    exact ⟨l, by simp [feed_loop, hl], rfl⟩
  | cons ch rest ih =>
    intro cfg
    by_cases hcond : mw ≤ cfg.line_position + 1 ∨ (0 ≤ ec ∧ (ch : Int) % 256 = ec % 256)
    · simp only [feed_loop, if_pos hcond]
      obtain ⟨i1, i2, i3, i4, i5, i6, i7⟩ :=
        ih { cfg with
             line_buffer := cfg.line_buffer.map (fun l => l.set cfg.line_position ch),
             line_position := 0 }
      refine ⟨i1, i2, i3, i4, i5, by rw [i6]; cases cfg.line_buffer <;> simp, ?_⟩
      intro l hl
      obtain ⟨l', hl', hlen⟩ := i7 (l.set cfg.line_position ch) (by simp [hl])
      exact ⟨l', hl', by simp [hlen]⟩
    · simp only [feed_loop, if_neg hcond]
      obtain ⟨i1, i2, i3, i4, i5, i6, i7⟩ :=
        ih { cfg with
             line_buffer := cfg.line_buffer.map (fun l => l.set cfg.line_position ch),
             line_position := cfg.line_position + 1 }
      refine ⟨i1, i2, i3, i4, i5, by rw [i6]; cases cfg.line_buffer <;> simp, ?_⟩
      intro l hl
      obtain ⟨l', hl', hlen⟩ := i7 (l.set cfg.line_position ch) (by simp [hl])
      exact ⟨l', hl', by simp [hlen]⟩

/-- If the effective frame bound does not exceed the buffer size, the
cursor stays strictly below the buffer size throughout a feed. -/
lemma feed_loop_pos_lt (mw : Nat) (ec : Int) :
    ∀ (buf : List Nat) (cfg : serial_input_cfg),
    cfg.line_position < cfg.line_buffer_size →
    mw ≤ cfg.line_buffer_size →
    (feed_loop mw ec cfg buf).1.line_position < cfg.line_buffer_size := by
  intro buf
  induction buf with
  | nil =>
    intro cfg hp _
    simpa [feed_loop] using hp
  | cons ch rest ih =>
    intro cfg hp hmw
    by_cases hcond : mw ≤ cfg.line_position + 1 ∨ (0 ≤ ec ∧ (ch : Int) % 256 = ec % 256)
    · simp only [feed_loop, if_pos hcond]
      exact ih _ (show (0 : Nat) < cfg.line_buffer_size from
        lt_of_le_of_lt (Nat.zero_le _) hp) hmw
    · simp only [feed_loop, if_neg hcond]
      have hlt : cfg.line_position + 1 < mw := by
        rcases not_or.mp hcond with ⟨h1, _⟩
        omega
      exact ih _ (show cfg.line_position + 1 < cfg.line_buffer_size by omega) hmw

/-- Every dispatch call made from inside a feed observes a cfg whose
cursor has already been reset to 0. -/
lemma feed_loop_events_cursor (mw : Nat) (ec : Int) :
    ∀ (buf : List Nat) (cfg : serial_input_cfg),
    ∀ e ∈ (feed_loop mw ec cfg buf).2, e.cfg_at_dispatch.line_position = 0 := by
  intro buf
  induction buf with
  | nil =>
    intro cfg e he
    simp [feed_loop] at he
  | cons ch rest ih =>
    intro cfg e he
    by_cases hcond : mw ≤ cfg.line_position + 1 ∨ (0 ≤ ec ∧ (ch : Int) % 256 = ec % 256)
    · simp only [feed_loop, if_pos hcond] at he
      rcases List.mem_cons.mp he with h | h
      · subst h
        rfl
      · exact ih _ e h
    · simp only [feed_loop, if_neg hcond] at he
      exact ih _ e he

/-- The structural invariant maintained by all well-behaved operations:
an unallocated buffer has size 0 and cursor 0; an allocated buffer has the
recorded size, the cursor strictly inside it, and a frame bound that fits. -/
def WFc (cfg : serial_input_cfg) : Prop :=
  (cfg.line_buffer = none → cfg.line_buffer_size = 0 ∧ cfg.line_position = 0) ∧
  (∀ l, cfg.line_buffer = some l →
     l.length = cfg.line_buffer_size ∧
     cfg.line_position < cfg.line_buffer_size ∧
     cfg.need_len ≤ cfg.line_buffer_size)

/-- The C6 invariant: the buffer is allocated exactly when a data consumer
is registered, and an unallocated buffer has recorded size 0. -/
def BufRef (cfg : serial_input_cfg) : Prop :=
  (cfg.line_buffer = none → cfg.line_buffer_size = 0) ∧
  (cfg.line_buffer.isSome ↔ cfg.receive_ref.isSome)

/-- Whether a Lua argument is a number. -/
def num_arg : LuaArg → Bool
  | .num _ => true
  | _ => false

/-- An operation that keeps the cursor invariant: allocation succeeds, and
it is not an error-method registration with a numeric argument (which
overwrites `need_len` without resizing the buffer). -/
def goodOp : Op → Bool
  | .feed _ => true
  | .register ok m a2 _ => ok && !(m == "error" && num_arg a2)

/-- An operation whose allocation (if any) succeeds. -/
def allocOkOp : Op → Bool
  | .feed _ => true
  | .register ok _ _ _ => ok

lemma min_size_for_bounds (c : serial_input_cfg) :
    c.line_position < min_size_for c ∧ c.need_len ≤ min_size_for c := by
  simp only [min_size_for, MAX_SERIAL_INPUT]
  by_cases h0 : c.need_len > 0
  · simp only [if_pos h0]
    by_cases h1 : c.line_position ≥ c.need_len
    · simp only [if_pos h1]
      omega
    · simp only [if_neg h1]
      omega
  · simp only [if_neg h0]
    by_cases h1 : c.line_position ≥ 255
    · simp only [if_pos h1]
      omega
    · simp only [if_neg h1]
      omega

/-- A successful `serial_input_register` call preserves the structural
invariant, provided an error-method registration does not carry a numeric
frame length. -/
lemma register_wf :
    ∀ (reg : LuaRegistry) (cfg : serial_input_cfg) (m : String) (a2 a3 : LuaArg),
    WFc cfg → (m = "error" → num_arg a2 = false) →
    WFc (serial_input_register true reg cfg m a2 a3).cfg := by
  intro reg cfg m a2 a3 hwf hex
  simp only [serial_input_register]
  split
  · exact hwf
  · rename_i hmethod
    split
    · exact hwf
    · rename_i cfgP hparse
      obtain ⟨hf1, hf2, hf3, hf4, hf5⟩ := parse_arg2_fields cfg a2 cfgP hparse
      by_cases hd : m = "data"
      · rw [if_pos hd]
        obtain ⟨hmsp, hmsn⟩ := min_size_for_bounds cfgP
        rcases hrr : cfgP.receive_ref with _ | r0 <;>
        · simp only [hrr]
          rcases hfi : fn_index a2 a3 with _ | k <;>
          · simp only [hfi]
            first
            | -- no function argument: resources freed, state cleared
              exact ⟨fun _ => ⟨rfl, rfl⟩, fun l hl => Option.noConfusion hl⟩
            | -- function argument: register and (re)alloc
              (simp only [min_size_for_receive]
               by_cases hsz : cfgP.line_buffer_size < min_size_for cfgP
               · rw [if_pos hsz, if_pos trivial]
                 refine ⟨fun h => Option.noConfusion h, fun l hl => ?_⟩
                 have hl' : l = ((cfgP.line_buffer.getD [] ++
                     List.replicate (min_size_for cfgP) 0).take (min_size_for cfgP)) := by
                   injection hl with h
                   exact h.symm
                 subst hl'
                 refine ⟨?_, hmsp, hmsn⟩
                 simp only [List.length_take, List.length_append, List.length_replicate]
                 omega
               · rw [if_neg hsz]
                 refine ⟨?_, ?_⟩
                 · intro hnone
                   obtain ⟨h01, h02⟩ := hwf.1 (hf3 ▸ hnone)
                   exact ⟨show cfgP.line_buffer_size = 0 by omega,
                     show cfgP.line_position = 0 by omega⟩
                 · intro l hl
                   obtain ⟨h1, h2, _⟩ := hwf.2 l (hf3 ▸ hl)
                   have hsz2 : min_size_for cfgP ≤ cfgP.line_buffer_size := not_lt.mp hsz
                   exact ⟨show l.length = cfgP.line_buffer_size by omega,
                     show cfgP.line_position < cfgP.line_buffer_size by omega,
                     show cfgP.need_len ≤ cfgP.line_buffer_size by omega⟩)
      · rw [if_neg hd]
        have hm : m = "error" := by
          rcases not_and_or.mp hmethod with h | h
          · exact absurd (not_not.mp h) hd
          · exact not_not.mp h
        have hna := hex hm
        have hwfP : WFc cfgP := by
          cases a2 with
          | num n => simp [num_arg] at hna
          | str s =>
            by_cases hs : s.length = 1
            · simp [parse_arg2, hs] at hparse
              subst hparse
              refine ⟨fun h => hwf.1 h, fun l hl => ?_⟩
              obtain ⟨h1, h2, _⟩ := hwf.2 l hl
              exact ⟨h1, h2, Nat.zero_le _⟩
            · simp [parse_arg2, hs] at hparse
          | func =>
            simp [parse_arg2] at hparse
            subst hparse
            exact hwf
          | nil =>
            simp [parse_arg2] at hparse
            subst hparse
            exact hwf
        rcases hre : cfgP.error_ref with _ | r0 <;>
        · simp only [hre]
          rcases hfi : fn_index a2 a3 with _ | k <;>
          · simp only [hfi]
            exact hwfP

/-- A successful `serial_input_register` call preserves the
buffer-iff-consumer invariant. -/
lemma register_bufref :
    ∀ (reg : LuaRegistry) (cfg : serial_input_cfg) (m : String) (a2 a3 : LuaArg),
    BufRef cfg → BufRef (serial_input_register true reg cfg m a2 a3).cfg := by
  intro reg cfg m a2 a3 hbr
  simp only [serial_input_register]
  split
  · exact hbr
  · rename_i hmethod
    split
    · exact hbr
    · rename_i cfgP hparse
      obtain ⟨hf1, hf2, hf3, hf4, hf5⟩ := parse_arg2_fields cfg a2 cfgP hparse
      have hbrP : BufRef cfgP := by
        refine ⟨?_, ?_⟩
        · intro h
          rw [hf4]
          exact hbr.1 (hf3 ▸ h)
        · rw [hf3, hf1]
          exact hbr.2
      by_cases hd : m = "data"
      · rw [if_pos hd]
        rcases hrr : cfgP.receive_ref with _ | r0 <;>
        · simp only [hrr]
          rcases hfi : fn_index a2 a3 with _ | k <;>
          · simp only [hfi]
            first
            | exact ⟨fun _ => rfl, by simp [hrr]⟩
            | (simp only [min_size_for_receive]
               by_cases hsz : cfgP.line_buffer_size < min_size_for cfgP
               · rw [if_pos hsz, if_pos trivial]
                 exact ⟨fun h => Option.noConfusion h, by simp⟩
               · rw [if_neg hsz]
                 refine ⟨fun hnone => hbrP.1 hnone, ?_⟩
                 have hms := (min_size_for_bounds cfgP).1
                 have hsz2 := not_lt.mp hsz
                 constructor
                 · intro _
                   simp
                 · intro _
                   rcases hx : cfgP.line_buffer with _ | l
                   · have h0 := hbrP.1 hx
                     omega
                   · simp)
      · rw [if_neg hd]
        rcases hre : cfgP.error_ref with _ | r0 <;>
        · simp only [hre]
          rcases hfi : fn_index a2 a3 with _ | k <;>
          · simp only [hfi]
            exact hbrP

/-- One well-behaved operation preserves the structural invariant. -/
lemma stepOp_wf (s : SysState) (op : Op) (hwf : WFc s.cfg) (hop : goodOp op = true) :
    WFc (stepOp s op).1.cfg := by
  cases op with
  | feed buf =>
    simp only [stepOp]
    by_cases hb : s.cfg.line_buffer = none
    · simp only [serial_input_feed_data, if_pos hb]
      exact hwf
    · simp only [serial_input_feed_data, if_neg hb]
      rcases hx : s.cfg.line_buffer with _ | l
      · exact absurd hx hb
      · obtain ⟨hlen, hposlt, hneed⟩ := hwf.2 l hx
        have hmw : max_wanted s.cfg ≤ s.cfg.line_buffer_size := by
          simp only [max_wanted]
          split
          · exact le_refl _
          · exact hneed
        obtain ⟨s1, s2, s3, s4, s5, s6, s7⟩ :=
          feed_loop_struct (max_wanted s.cfg) s.cfg.end_char buf s.cfg
        have hpos := feed_loop_pos_lt (max_wanted s.cfg) s.cfg.end_char buf s.cfg hposlt hmw
        obtain ⟨l', hl', hl'len⟩ := s7 l hx
        refine ⟨?_, ?_⟩
        · intro hn
          rw [hl'] at hn
          exact Option.noConfusion hn
        · intro l2 hl2
          rw [hl'] at hl2
          injection hl2 with h
          subst h
          refine ⟨?_, ?_, ?_⟩
          · rw [s3]
            exact hl'len.trans hlen
          · rw [s3]
            exact hpos
          · rw [s3, s4]
            exact hneed
  | register ok m a2 a3 =>
    simp only [goodOp, Bool.and_eq_true] at hop
    obtain ⟨hok, hop2⟩ := hop
    subst hok
    simp only [stepOp]
    apply register_wf _ _ _ _ _ hwf
    intro hm
    cases hna : num_arg a2 with
    | false => rfl
    | true =>
      rw [hm, hna] at hop2
      simp at hop2

/-- One successfully allocating operation preserves buffer-iff-consumer. -/
lemma stepOp_bufref (s : SysState) (op : Op) (hbr : BufRef s.cfg)
    (hop : allocOkOp op = true) :
    BufRef (stepOp s op).1.cfg := by
  cases op with
  | feed buf =>
    simp only [stepOp]
    by_cases hb : s.cfg.line_buffer = none
    · simp only [serial_input_feed_data, if_pos hb]
      exact hbr
    · simp only [serial_input_feed_data, if_neg hb]
      obtain ⟨s1, s2, s3, s4, s5, s6, s7⟩ :=
        feed_loop_struct (max_wanted s.cfg) s.cfg.end_char buf s.cfg
      refine ⟨?_, ?_⟩
      · intro hn
        rw [s3]
        apply hbr.1
        rcases hx : s.cfg.line_buffer with _ | l
        · rfl
        · exfalso
          obtain ⟨l', hl', _⟩ := s7 l hx
          rw [hl'] at hn
          exact Option.noConfusion hn
      · rw [s1, s6]
        exact hbr.2
  | register ok m a2 a3 =>
    simp only [allocOkOp] at hop
    subst hop
    simp only [stepOp]
    exact register_bufref s.reg s.cfg m a2 a3 hbr

lemma runOps_wf :
    ∀ (ops : List Op) (s : SysState),
    WFc s.cfg → (∀ op ∈ ops, goodOp op = true) →
    WFc (runOps s ops).1.cfg := by
  intro ops
  induction ops with
  | nil =>
    intro s h _
    simpa [runOps] using h
  | cons op rest ih =>
    intro s h hops
    simp only [runOps]
    exact ih _ (stepOp_wf s op h (hops op (List.mem_cons_self _ _)))
      (fun o ho => hops o (List.mem_cons_of_mem _ ho))

lemma runOps_bufref :
    ∀ (ops : List Op) (s : SysState),
    BufRef s.cfg → (∀ op ∈ ops, allocOkOp op = true) →
    BufRef (runOps s ops).1.cfg := by
  intro ops
  induction ops with
  | nil =>
    intro s h _
    simpa [runOps] using h
  | cons op rest ih =>
    intro s h hops
    simp only [runOps]
    exact ih _ (stepOp_bufref s op h (hops op (List.mem_cons_self _ _)))
      (fun o ho => hops o (List.mem_cons_of_mem _ ho))

lemma runOps_events :
    ∀ (ops : List Op) (s : SysState),
    ∀ e ∈ (runOps s ops).2, e.cfg_at_dispatch.line_position = 0 := by
  intro ops
  induction ops with
  | nil =>
    intro s e he
    simp [runOps] at he
  | cons op rest ih =>
    intro s e he
    simp only [runOps, List.mem_append] at he
    rcases he with h | h
    · cases op with
      | feed buf =>
        simp only [stepOp] at h
        by_cases hb : s.cfg.line_buffer = none
        · simp [serial_input_feed_data, hb] at h
        · simp only [serial_input_feed_data, if_neg hb] at h
          exact feed_loop_events_cursor _ _ buf s.cfg e h
      | register ok m a2 a3 =>
        simp [stepOp] at h
    · exact ih _ e h

/-- C4 (amended): over any operation sequence from `serial_input_new` in
which every registration's allocation succeeds and no error-method
registration carries a numeric frame length, the write cursor satisfies
0 ≤ line_position ≤ line_buffer_size after every operation; and,
unconditionally, every dispatch from `serial_input_feed_data` hands the
callback a cfg whose position has already been reset to 0. -/
theorem cursor_invariant :
    ∀ (ops : List Op),
    ((∀ op ∈ ops, goodOp op = true) →
      (runOps initState ops).1.cfg.line_position ≤
        (runOps initState ops).1.cfg.line_buffer_size) ∧
    (∀ e ∈ (runOps initState ops).2, e.cfg_at_dispatch.line_position = 0) := by
  intro ops
  constructor
  · intro hops
    have hwf := runOps_wf ops initState
      ⟨fun _ => ⟨rfl, rfl⟩, fun l hl => Option.noConfusion hl⟩ hops
    rcases hx : (runOps initState ops).1.cfg.line_buffer with _ | l
    · obtain ⟨h1, h2⟩ := hwf.1 hx
      omega
    · obtain ⟨_, h2, _⟩ := hwf.2 l hx
      omega
  · exact runOps_events ops initState

/-- C4 counterexample: as literally stated ("every sequence of
feed/register/unregister operations"), the cursor bound fails.  Run 1: a
registration whose reallocation fails leaves position 3 with
line_buffer_size 0.  Run 2: an error-method registration with a numeric
argument overwrites need_len with 300 while the buffer stays 4 bytes, and
the next feed pushes position to 5 > 4 (in C this is a heap overflow). -/
theorem cursor_invariant_counterexample :
    ¬ ((runOps initState [.register true "data" (.num 4) .func, .feed [65, 66, 67],
          .register false "data" (.num 10) .func]).1.cfg.line_position ≤
        (runOps initState [.register true "data" (.num 4) .func, .feed [65, 66, 67],
          .register false "data" (.num 10) .func]).1.cfg.line_buffer_size) ∧
    ¬ ((runOps initState [.register true "data" (.num 4) .func,
          .register true "error" (.num 300) .func,
          .feed [1, 2, 3, 4, 5]]).1.cfg.line_position ≤
        (runOps initState [.register true "data" (.num 4) .func,
          .register true "error" (.num 300) .func,
          .feed [1, 2, 3, 4, 5]]).1.cfg.line_buffer_size) := by
  decide

/-- Witness for `cursor_invariant`: a FixedLength(4) registration followed
by a 3-byte feed. -/
theorem cursor_invariant_witness :
    (runOps initState [.register true "data" (.num 4) .func,
        .feed [65, 66, 67]]).1.cfg.line_position ≤
      (runOps initState [.register true "data" (.num 4) .func,
        .feed [65, 66, 67]]).1.cfg.line_buffer_size ∧
    (∀ e ∈ (runOps initState [.register true "data" (.num 4) .func,
        .feed [65, 66, 67]]).2, e.cfg_at_dispatch.line_position = 0) :=
  ⟨(cursor_invariant [.register true "data" (.num 4) .func, .feed [65, 66, 67]]).1
      (by decide),
   (cursor_invariant [.register true "data" (.num 4) .func, .feed [65, 66, 67]]).2⟩

/-- C6 (amended): provided every registration's allocation succeeds, the
line buffer is allocated exactly when a data consumer is registered
(`line_buffer ≠ NULL` iff `receive_ref ≠ LUA_NOREF`), after every
operation sequence starting from `serial_input_new`. -/
theorem buffer_iff_consumer :
    ∀ (ops : List Op),
    (∀ op ∈ ops, allocOkOp op = true) →
    ((runOps initState ops).1.cfg.line_buffer.isSome ↔
      (runOps initState ops).1.cfg.receive_ref.isSome) := by
  intro ops hops
  exact (runOps_bufref ops initState ⟨fun _ => rfl, Iff.rfl⟩ hops).2

/-- C6 counterexample: a single data registration whose allocation fails
leaves `receive_ref` installed but `line_buffer = NULL`, breaking the
claimed equivalence. -/
theorem buffer_iff_consumer_counterexample :
    ¬ ((runOps initState [.register false "data" (.num 300) .func]).1.cfg.line_buffer.isSome ↔
       (runOps initState [.register false "data" (.num 300) .func]).1.cfg.receive_ref.isSome) := by
  decide

/-- Witness for `buffer_iff_consumer`: register, feed, unregister. -/
theorem buffer_iff_consumer_witness :
    (runOps initState [.register true "data" (.num 4) .func, .feed [65],
        .register true "data" .nil .nil]).1.cfg.line_buffer.isSome ↔
      (runOps initState [.register true "data" (.num 4) .func, .feed [65],
        .register true "data" .nil .nil]).1.cfg.receive_ref.isSome :=
  buffer_iff_consumer [.register true "data" (.num 4) .func, .feed [65],
    .register true "data" .nil .nil] (by decide)

end SerialVerify
